import Mathlib

/-!
Verification of the AppsUtils email-retrieval pipeline.

This file gives a shallow embedding of the Python scripts in this repository
(src/do_email/do_email_search.py, src/email_do/do_email_search.py,
src/Office365API/get_user_email.py, src/O365/EmailScan/email_scan.py) and
proves properties of the embedded definitions.

Modelling conventions:
- A message dict is modelled by the structure `Message`; the nested
  `recipient["emailAddress"]["address"]` access path (with `""` defaults) is
  collapsed so that recipient lists are lists of address strings, and the
  ISO-8601 `receivedDateTime` / `sentDateTime` string is modelled as an
  already-parsed timestamp `Option Int` (seconds; `none` = missing or
  unparseable, which in Python raises inside `datetime.fromisoformat`).
- Python string operations are modelled on the character list `String.data`:
  `pyIn` is the `in` substring test, `pyLower` is `str.lower`, and
  `pyStartsWith` is `str.startswith`.
- HTTP traffic is modelled by oracles: a pagination loop consumes a
  `List PageResponse` trace (one element per GET request) or an oracle
  function `Nat → PageResponse` indexed by request number; the token
  endpoint is modelled by a `TokenResponse` value.
- The `.env` side-channel store is modelled as `EnvState` (the parsed view:
  token value plus parsed timestamp) for the token-lifecycle claims, and as
  a raw `List String` of lines for the file-upsert claim.
-/

/-- Python list/str prefix test on character lists: `leadsWith sub l` is true
iff `sub` is a prefix of `l`. -/
def leadsWith : List Char → List Char → Bool
  | [], _ => true
  | _ :: _, [] => false
  | a :: as, b :: bs => a == b && leadsWith as bs

/-- Substring occurrence on character lists: true iff `sub` occurs
contiguously inside the second list (Python `sub in s`). -/
def occursIn (sub : List Char) : List Char → Bool
  | [] => sub.isEmpty
  | b :: bs => leadsWith sub (b :: bs) || occursIn sub bs

/-- Python `sub in s` substring test on strings. -/
def pyIn (sub s : String) : Bool := occursIn sub.data s.data

/-- Python `s.lower()` (ASCII case folding, which is what the addresses and
domain terms in this repository use). -/
def pyLower (s : String) : String := ⟨s.data.map Char.toLower⟩

/-- Python `s.startswith(pre)`. -/
def pyStartsWith (s pre : String) : Bool := leadsWith pre.data s.data

/-- A wire message record, post-parse (see the modelling conventions above).
`receivedDateTime` stands for the timestamp field each script reads
(`receivedDateTime` or `sentDateTime`). -/
structure Message where
  subject : String
  fromAddr : String
  fromName : String
  toRecipients : List String
  ccRecipients : List String
  receivedDateTime : Option Int
deriving DecidableEq

/-- The parsed view of the `.env` token cache: `ACCESS_TOKEN` and the parsed
issuance timestamp (`TOKEN_GENERATED_AT` / `TOKEN_TIMESTAMP`); `none` models
an absent or unparseable timestamp, `accessToken = ""` an absent token. -/
structure EnvState where
  accessToken : String
  tokenGeneratedAt : Option Int
deriving DecidableEq

/-- A (successful) response of the OAuth2 token endpoint; `accessToken = ""`
models a response with no `access_token` field. -/
structure TokenResponse where
  accessToken : String
deriving DecidableEq

/-- One HTTP response of the messages endpoint: either a page (its `value`
message list and whether an `@odata.nextLink` is present) or an HTTP error
status. -/
inductive PageResponse where
  | ok (msgs : List Message) (nextLink : Bool)
  | err (status : Nat)
deriving DecidableEq

/-- `TOKEN_REFRESH_MARGIN = 300` (do_email / email_do variants). -/
def TOKEN_REFRESH_MARGIN : Int := 300

/-- The inner recipient test of `filter_by_domains` (identical line in both
variants): `any(domain in email for domain in domains)` where
`email = recipient address lowered`. -/
def recipMatch (domains : List String) (addr : String) : Bool :=
  domains.any (fun d => pyIn d (pyLower addr))

/-- src/do_email/do_email_search.py `has_external_recipients`: some To/Cc
address is nonempty and does not contain "christoffersonrobb.com". -/
def DoEmail.hasExternalRecipients (m : Message) : Bool :=
  (m.toRecipients ++ m.ccRecipients).any (fun r =>
    !(pyLower r).isEmpty && !pyIn "christoffersonrobb.com" (pyLower r))

/-- The message loop of src/do_email/do_email_search.py `filter_by_domains`:
for each message, find the first To/Cc recipient whose lowered address
contains some domain term; if found, append the message when it also has an
external recipient, and break. -/
def DoEmail.filterByDomainsGo (domains : List String) : List Message → List Message
  | [] => []
  | m :: rest =>
    match (m.toRecipients ++ m.ccRecipients).find? (recipMatch domains) with
    | some _ =>
      if DoEmail.hasExternalRecipients m then
        m :: DoEmail.filterByDomainsGo domains rest
      else
        DoEmail.filterByDomainsGo domains rest
    | none => DoEmail.filterByDomainsGo domains rest

/-- src/do_email/do_email_search.py `filter_by_domains` (empty domain list
returns the input unchanged). -/
def DoEmail.filterByDomains (messages : List Message) (domains : List String) :
    List Message :=
  if domains.isEmpty then messages else DoEmail.filterByDomainsGo domains messages

/-- The message loop of src/email_do/do_email_search.py `filter_by_domains`:
same shape, but it scans only `toRecipients` and has no external-recipient
condition. -/
def EmailDo.filterByDomainsGo (domains : List String) : List Message → List Message
  | [] => []
  | m :: rest =>
    match m.toRecipients.find? (recipMatch domains) with
    | some _ => m :: EmailDo.filterByDomainsGo domains rest
    | none => EmailDo.filterByDomainsGo domains rest

/-- src/email_do/do_email_search.py `filter_by_domains`. -/
def EmailDo.filterByDomains (messages : List Message) (domains : List String) :
    List Message :=
  if domains.isEmpty then messages else EmailDo.filterByDomainsGo domains messages

/-- A message whose only recipient is at a plain internal address; used to
exhibit the external-recipient conjunct of the do_email filter. -/
def msgInternalOnly : Message :=
  { subject := "internal", fromAddr := "", fromName := "",
    toRecipients := ["bob@christoffersonrobb.com"], ccRecipients := [],
    receivedDateTime := none }

/-- The message of the claim: its only recipient is "x@notacme.com". -/
def msgNotAcme : Message :=
  { subject := "notacme", fromAddr := "", fromName := "",
    toRecipients := ["x@notacme.com"], ccRecipients := [],
    receivedDateTime := none }

/-- A message whose only domain match is in the Cc list; used to exhibit
that the email_do filter ignores Cc. -/
def msgCcOnly : Message :=
  { subject := "cconly", fromAddr := "", fromName := "",
    toRecipients := ["y@other.org"], ccRecipients := ["y@acme.com"],
    receivedDateTime := none }

theorem any_eq_false_of_find?_none {α : Type} {p : α → Bool} {l : List α}
    (h : l.find? p = none) : l.any p = false := by
  rw [List.find?_eq_none] at h
  simp only [List.any_eq_false]
  exact fun x hx => h x hx

theorem any_eq_true_of_find?_some {α : Type} {p : α → Bool} {l : List α} {a : α}
    (h : l.find? p = some a) : l.any p = true := by
  simp only [List.any_eq_true]
  exact ⟨a, List.mem_of_find?_eq_some h, List.find?_some h⟩

theorem DoEmail.filterByDomainsGo_eq_filter (domains : List String)
    (msgs : List Message) :
    DoEmail.filterByDomainsGo domains msgs =
      msgs.filter (fun m =>
        (m.toRecipients ++ m.ccRecipients).any (recipMatch domains) &&
          DoEmail.hasExternalRecipients m) := by
  induction msgs with
  | nil => rfl
  | cons m rest ih =>
    rw [List.filter_cons]
    cases h : (m.toRecipients ++ m.ccRecipients).find? (recipMatch domains) with
    | none =>
      rw [DoEmail.filterByDomainsGo, h, any_eq_false_of_find?_none h]
      simpa using ih
    | some r =>
      rw [DoEmail.filterByDomainsGo, h, any_eq_true_of_find?_some h]
      by_cases hext : DoEmail.hasExternalRecipients m
      · simp [hext, ih]
      · simp [hext, ih]

theorem EmailDo.filterByDomainsGo_eq_filterToOnly (domains : List String)
    (msgs : List Message) :
    EmailDo.filterByDomainsGo domains msgs =
      msgs.filter (fun m => m.toRecipients.any (recipMatch domains)) := by
  induction msgs with
  | nil => rfl
  | cons m rest ih =>
    rw [List.filter_cons]
    cases h : m.toRecipients.find? (recipMatch domains) with
    | none =>
      rw [EmailDo.filterByDomainsGo, h, any_eq_false_of_find?_none h]
      simpa using ih
    | some r =>
      rw [EmailDo.filterByDomainsGo, h, any_eq_true_of_find?_some h]
      simp [ih]

/-- C1 counterexample: the claim's "kept if and only if some To/Cc address
contains a term" fails on both cited implementations. In the do_email
variant, `msgInternalOnly`'s single To address contains the term
"christoffersonrobb.com", yet the message is dropped (it has no external
recipient). In the email_do variant, `msgCcOnly`'s Cc address contains
"acme.com", yet the message is dropped (only To is scanned). -/
theorem c1_counterexample :
    pyIn "christoffersonrobb.com" (pyLower "bob@christoffersonrobb.com") = true
      ∧ DoEmail.filterByDomains [msgInternalOnly] ["christoffersonrobb.com"] = []
      ∧ pyIn "acme.com" (pyLower "y@acme.com") = true
      ∧ EmailDo.filterByDomains [msgCcOnly] ["acme.com"] = [] := by
  refine ⟨by decide, by decide, by decide, by decide⟩

/-- C1 (amended): for a non-empty list of domain terms, the do_email filter
keeps a message iff some To/Cc address contains some term as a substring of
the lowered address AND the message has an external (non
christoffersonrobb.com) recipient; the email_do filter keeps a message iff
some To address (Cc is ignored) contains some term. In particular the
message whose only recipient is "x@notacme.com" is kept by both for the term
"acme.com" (substring semantics, no domain-boundary anchoring). -/
theorem c1_domain_filter_characterization :
    (∀ (msgs : List Message) (d : String) (ds : List String),
        DoEmail.filterByDomains msgs (d :: ds) =
          msgs.filter (fun m =>
            (m.toRecipients ++ m.ccRecipients).any (recipMatch (d :: ds)) &&
              DoEmail.hasExternalRecipients m))
      ∧ (∀ (msgs : List Message) (d : String) (ds : List String),
          EmailDo.filterByDomains msgs (d :: ds) =
            msgs.filter (fun m => m.toRecipients.any (recipMatch (d :: ds))))
      ∧ DoEmail.filterByDomains [msgNotAcme] ["acme.com"] = [msgNotAcme]
      ∧ EmailDo.filterByDomains [msgNotAcme] ["acme.com"] = [msgNotAcme] := by
  refine ⟨?_, ?_, by decide, by decide⟩
  · intro msgs d ds
    rw [DoEmail.filterByDomains, if_neg (by simp)]
    exact DoEmail.filterByDomainsGo_eq_filter (d :: ds) msgs
  · intro msgs d ds
    rw [EmailDo.filterByDomains, if_neg (by simp)]
    exact EmailDo.filterByDomainsGo_eq_filterToOnly (d :: ds) msgs

/-- C8: both domain filters return a sublist of their input — they never
reorder, they only remove non-matching messages. -/
theorem c8_filter_is_sublist (messages : List Message) (domains : List String) :
    (DoEmail.filterByDomains messages domains).Sublist messages
      ∧ (EmailDo.filterByDomains messages domains).Sublist messages := by
  constructor
  · rw [DoEmail.filterByDomains]
    by_cases h : domains.isEmpty
    · simp [h]
    · rw [if_neg h, DoEmail.filterByDomainsGo_eq_filter]
      exact List.filter_sublist messages
  · rw [EmailDo.filterByDomains]
    by_cases h : domains.isEmpty
    · simp [h]
    · rw [if_neg h, EmailDo.filterByDomainsGo_eq_filterToOnly]
      exact List.filter_sublist messages

/-- src/do_email/do_email_search.py `is_token_expired` (identical in
src/email_do/do_email_search.py): expired when the token or timestamp is
missing/unparseable, or when `now >= generated_at + (3600 -
TOKEN_REFRESH_MARGIN)`. -/
def DoEmail.isTokenExpired (env : EnvState) (now : Int) : Bool :=
  if env.accessToken.isEmpty then true
  else
    match env.tokenGeneratedAt with
    | none => true
    | some t => decide (now ≥ t + (3600 - TOKEN_REFRESH_MARGIN))

/-- src/do_email/do_email_search.py `get_new_access_token`: one POST to the
token endpoint (modelled by the `resp` oracle); on a response carrying a
token it saves the token and the current timestamp to .env
(`save_token_to_env`) and returns it; a response with no token raises
(`none`). -/
def DoEmail.getNewAccessToken (resp : TokenResponse) (now : Int) :
    Option (String × EnvState) :=
  if resp.accessToken.isEmpty then none
  else some (resp.accessToken, ⟨resp.accessToken, some now⟩)

/-- src/do_email/do_email_search.py `get_access_token`; the result records
the returned token (`none` = raised), the number of token requests issued,
and the .env cache state after the call. -/
def DoEmail.getAccessToken (env : EnvState) (now : Int) (resp : TokenResponse) :
    Option String × Nat × EnvState :=
  if DoEmail.isTokenExpired env now then
    match DoEmail.getNewAccessToken resp now with
    | some (tok, env2) => (some tok, 1, env2)
    | none => (none, 1, env)
  else (some env.accessToken, 0, env)

/-- src/Office365API/get_user_email.py `generate_access_token`: uses the
cached token when it exists, its timestamp parses, and the age is under one
hour (this variant has no refresh margin); otherwise it issues one token
request and persists token and timestamp via `update_env_file`. -/
def O365.generateAccessToken (env : EnvState) (now : Int) (resp : TokenResponse) :
    Option String × Nat × EnvState :=
  let fresh : Bool :=
    !env.accessToken.isEmpty &&
      (match env.tokenGeneratedAt with
       | none => false
       | some t => decide (now - t < 3600))
  if fresh then (some env.accessToken, 0, env)
  else if resp.accessToken.isEmpty then (none, 1, env)
  else (some resp.accessToken, 1, ⟨resp.accessToken, some now⟩)

/-- C2: a cached token younger than 1h minus the refresh margin is returned
unchanged with no token request and no cache write; once the age reaches 1h
minus the margin, exactly one refresh request is issued and the cache is
overwritten with the new token and the current timestamp. The margin is
`TOKEN_REFRESH_MARGIN = 300` s in the do_email variant and 0 in the
Office365API variant (which uses the plain 1-hour bound). -/
theorem c2_token_cache (env : EnvState) (now t : Int) (resp : TokenResponse)
    (hts : env.tokenGeneratedAt = some t)
    (htok : env.accessToken.isEmpty = false)
    (hresp : resp.accessToken.isEmpty = false) :
    (now - t < 3600 - TOKEN_REFRESH_MARGIN →
        DoEmail.getAccessToken env now resp = (some env.accessToken, 0, env))
      ∧ (3600 - TOKEN_REFRESH_MARGIN ≤ now - t →
          DoEmail.getAccessToken env now resp =
            (some resp.accessToken, 1, ⟨resp.accessToken, some now⟩))
      ∧ (now - t < 3600 →
          O365.generateAccessToken env now resp = (some env.accessToken, 0, env))
      ∧ (3600 ≤ now - t →
          O365.generateAccessToken env now resp =
            (some resp.accessToken, 1, ⟨resp.accessToken, some now⟩)) := by
  refine ⟨?_, ?_, ?_, ?_⟩
  · intro hage
    have hexp : DoEmail.isTokenExpired env now = false := by
      rw [DoEmail.isTokenExpired, htok, hts]
      simp only [Bool.false_eq_true, if_false, decide_eq_false_iff_not]
      rw [TOKEN_REFRESH_MARGIN] at hage ⊢
      omega
    rw [DoEmail.getAccessToken, hexp]
    simp
  · intro hage
    have hexp : DoEmail.isTokenExpired env now = true := by
      rw [DoEmail.isTokenExpired, htok, hts]
      simp only [Bool.false_eq_true, if_false, decide_eq_true_eq]
      rw [TOKEN_REFRESH_MARGIN] at hage ⊢
      omega
    have hnew : DoEmail.getNewAccessToken resp now =
        some (resp.accessToken, ⟨resp.accessToken, some now⟩) := by
      rw [DoEmail.getNewAccessToken, if_neg]
      simp [hresp]
    rw [DoEmail.getAccessToken, hexp, hnew]
    simp
  · intro hage
    rw [O365.generateAccessToken]
    simp only [hts, htok, Bool.not_false, Bool.true_and]
    rw [if_pos (by simpa using hage)]
  · intro hage
    rw [O365.generateAccessToken]
    simp only [hts, htok, Bool.not_false, Bool.true_and]
    rw [if_neg (by simp only [decide_eq_true_eq]; omega), if_neg (by simp [hresp])]

/-- C2 witness: a token issued at t=0 is still served from the cache at
age 100 s with no request, and is refreshed (one request, cache overwritten)
at age 5000 s. -/
theorem c2_token_cache_witness :
    DoEmail.getAccessToken ⟨"tok", some 0⟩ 100 ⟨"new"⟩ = (some "tok", 0, ⟨"tok", some 0⟩)
      ∧ DoEmail.getAccessToken ⟨"tok", some 0⟩ 5000 ⟨"new"⟩ =
          (some "new", 1, ⟨"new", some 5000⟩) := by
  constructor
  · exact (c2_token_cache ⟨"tok", some 0⟩ 100 0 ⟨"new"⟩ rfl rfl rfl).1 (by decide)
  · exact (c2_token_cache ⟨"tok", some 0⟩ 5000 0 ⟨"new"⟩ rfl rfl rfl).2.1 (by decide)

/-- The `while url:` pagination loop of src/email_do/do_email_search.py
`get_all_messages` (identical control flow in src/do_email/do_email_search.py
`get_all_messages_filter` / `get_all_messages_search`), driven by a response
trace: a page extends the accumulator and follows `@odata.nextLink` when
present; HTTP 401 regenerates the token and retries the same request
(`continue`); any other HTTP error breaks, returning what was accumulated.
Returns `(messages, token refresh count, unconsumed trace)`, or `none` when
the trace is exhausted with a request still pending. -/
def EmailDo.getAllMessagesGo :
    List PageResponse → List Message → Nat →
      Option (List Message × Nat × List PageResponse)
  | [], _, _ => none
  | .ok msgs next :: rest, acc, refreshes =>
      if next then EmailDo.getAllMessagesGo rest (acc ++ msgs) refreshes
      else some (acc ++ msgs, refreshes, rest)
  | .err status :: rest, acc, refreshes =>
      if status = 401 then EmailDo.getAllMessagesGo rest acc (refreshes + 1)
      else some (acc, refreshes, rest)

/-- src/email_do/do_email_search.py `get_all_messages` on a response trace. -/
def EmailDo.getAllMessages (trace : List PageResponse) :
    Option (List Message × Nat × List PageResponse) :=
  EmailDo.getAllMessagesGo trace [] 0

/-- The response trace of the C4 scenario: one `ok` response per page, the
continuation link present on every page but the last. -/
def pagesTrace : List (List Message) → List PageResponse
  | [] => []
  | [p] => [.ok p false]
  | p :: q :: ps => .ok p true :: pagesTrace (q :: ps)

theorem EmailDo.getAllMessagesGo_pagesTrace (ps : List (List Message))
    (p : List Message) (rest : List PageResponse) (acc : List Message) (r : Nat) :
    EmailDo.getAllMessagesGo (pagesTrace (p :: ps) ++ rest) acc r =
      some (acc ++ (p :: ps).flatten, r, rest) := by
  induction ps generalizing p acc with
  | nil => simp [pagesTrace, EmailDo.getAllMessagesGo]
  | cons q ps ih =>
    show EmailDo.getAllMessagesGo
      (.ok p true :: (pagesTrace (q :: ps) ++ rest)) acc r = _
    rw [EmailDo.getAllMessagesGo, if_pos rfl, ih q (acc ++ p)]
    simp

theorem pagesTrace_length (p : List Message) (ps : List (List Message)) :
    (pagesTrace (p :: ps)).length = (p :: ps).length := by
  induction ps generalizing p with
  | nil => rfl
  | cons q ps ih =>
    rw [pagesTrace, List.length_cons, ih q]
    simp

/-- C4: on a trace of N ≥ 1 pages whose continuation link is present on all
but the last page, the fetcher returns exactly the concatenation of the
pages' message lists, consumes exactly one response per page (the trace
after the scenario's N responses is returned untouched, so following stops
at the first absent continuation), and performs no token refresh. -/
theorem c4_pagination_concat (p : List Message) (ps : List (List Message))
    (rest : List PageResponse) :
    EmailDo.getAllMessages (pagesTrace (p :: ps) ++ rest) =
        some ((p :: ps).flatten, 0, rest)
      ∧ (pagesTrace (p :: ps)).length = (p :: ps).length := by
  constructor
  · rw [EmailDo.getAllMessages, EmailDo.getAllMessagesGo_pagesTrace]
    simp
  · exact pagesTrace_length p ps

/-- The single concrete message used by the pagination counterexamples. -/
def msgA : Message :=
  { subject := "a", fromAddr := "", fromName := "",
    toRecipients := [], ccRecipients := [], receivedDateTime := some 1 }

/-- C3 counterexample: after two consecutive 401 responses the fetcher has
refreshed the token twice — not once — and keeps fetching (the third
response is consumed and its messages are returned), refuting "no further
refresh is attempted and the condition is treated as a FetchError". -/
theorem c3_counterexample :
    EmailDo.getAllMessages [.err 401, .err 401, .ok [msgA] false] =
      some ([msgA], 2, []) := by
  decide

theorem EmailDo.getAllMessagesGo_replicate401 (k : Nat) (t : List PageResponse)
    (acc : List Message) (r : Nat) :
    EmailDo.getAllMessagesGo (List.replicate k (.err 401) ++ t) acc r =
      EmailDo.getAllMessagesGo t acc (r + k) := by
  induction k generalizing r with
  | zero => rfl
  | succ k ih =>
    rw [List.replicate_succ, List.cons_append, EmailDo.getAllMessagesGo,
      if_pos rfl, ih]
    congr 1
    omega

/-- C3 (amended): every HTTP 401 response triggers a token refresh followed
by a retry of the same page request, with no one-refresh limit: k
consecutive 401 responses produce exactly k refreshes, after which a
successful page completes the fetch normally (only a non-401 HTTP error
stops fetching for the folder). -/
theorem c3_retry_per_401 (k : Nat) (msgs : List Message)
    (rest : List PageResponse) :
    EmailDo.getAllMessages
        (List.replicate k (.err 401) ++ .ok msgs false :: rest) =
      some (msgs, k, rest) := by
  rw [EmailDo.getAllMessages, EmailDo.getAllMessagesGo_replicate401,
    EmailDo.getAllMessagesGo]
  simp

/-- The per-folder `while url:` pagination loop of
src/O365/EmailScan/email_scan.py `fetch_emails`, driven by a response oracle
`f` indexed by request number. Each iteration issues one request; on any
HTTP error it breaks keeping the accumulated `folder_messages`; after
extending, the accumulator is truncated to 1000 messages and the loop stops
("Stop at 1000 messages per folder for safety"); otherwise it follows
`@odata.nextLink` while the incremented page counter stays ≤ 100 ("page
limit reached"). Returns the folder's messages and the next unused request
index (so starting from index 0 the second component is the number of
requests issued). -/
def EmailScan.fetchFolderGo (f : Nat → PageResponse) (page idx : Nat)
    (acc : List Message) : List Message × Nat :=
  match f idx with
  | .err _ => (acc, idx + 1)
  | .ok msgs next =>
      let acc2 := acc ++ msgs
      if 1000 ≤ acc2.length then (acc2.take 1000, idx + 1)
      else if next then
        if h : 100 < page + 1 then (acc2, idx + 1)
        else EmailScan.fetchFolderGo f (page + 1) (idx + 1) acc2
      else (acc2, idx + 1)
termination_by 100 - page
decreasing_by omega

theorem EmailScan.fetchFolderGo_eq (f : Nat → PageResponse) (page idx : Nat)
    (acc : List Message) :
    EmailScan.fetchFolderGo f page idx acc =
      match f idx with
      | .err _ => (acc, idx + 1)
      | .ok msgs next =>
          if 1000 ≤ (acc ++ msgs).length then ((acc ++ msgs).take 1000, idx + 1)
          else if next then
            if 100 < page + 1 then (acc ++ msgs, idx + 1)
            else EmailScan.fetchFolderGo f (page + 1) (idx + 1) (acc ++ msgs)
          else (acc ++ msgs, idx + 1) := by
  rw [EmailScan.fetchFolderGo]
  simp only [dite_eq_ite]

/-- One folder fetch of `fetch_emails` (page counter and request index start
at 0, empty accumulator). -/
def EmailScan.fetchFolder (f : Nat → PageResponse) : List Message × Nat :=
  EmailScan.fetchFolderGo f 0 0 []

/-- The folder loop of `fetch_emails`: each resolved folder is queried with
its own response oracle and its `folder_messages` are appended to
`all_messages`. -/
def EmailScan.fetchFolders (fs : List (Nat → PageResponse)) : List Message :=
  (fs.map (fun f => (EmailScan.fetchFolder f).1)).flatten

theorem EmailScan.fetchFolderGo_bounds (f : Nat → PageResponse) (n : Nat) :
    ∀ (page idx : Nat) (acc : List Message), 100 - page ≤ n →
      acc.length < 1000 →
      (EmailScan.fetchFolderGo f page idx acc).1.length ≤ 1000 ∧
        (EmailScan.fetchFolderGo f page idx acc).2 ≤ idx + 1 + (100 - page) := by
  induction n with
  | zero =>
    intro page idx acc hn hacc
    rw [EmailScan.fetchFolderGo_eq]
    cases hf : f idx with
    | err s => exact ⟨by show acc.length ≤ 1000; omega,
        by show idx + 1 ≤ idx + 1 + (100 - page); omega⟩
    | ok msgs next =>
      simp only
      by_cases hlen : 1000 ≤ (acc ++ msgs).length
      · rw [if_pos hlen]
        exact ⟨by simpa using Nat.min_le_left 1000 _, by simp⟩
      · rw [if_neg hlen]
        by_cases hnext : next = true
        · rw [if_pos hnext, if_pos (show 100 < page + 1 by omega)]
          exact ⟨by show (acc ++ msgs).length ≤ 1000; omega,
            by show idx + 1 ≤ idx + 1 + (100 - page); omega⟩
        · rw [if_neg hnext]
          exact ⟨by show (acc ++ msgs).length ≤ 1000; omega,
            by show idx + 1 ≤ idx + 1 + (100 - page); omega⟩
  | succ n ih =>
    intro page idx acc hn hacc
    rw [EmailScan.fetchFolderGo_eq]
    cases hf : f idx with
    | err s => exact ⟨by show acc.length ≤ 1000; omega,
        by show idx + 1 ≤ idx + 1 + (100 - page); omega⟩
    | ok msgs next =>
      simp only
      by_cases hlen : 1000 ≤ (acc ++ msgs).length
      · rw [if_pos hlen]
        exact ⟨by simpa using Nat.min_le_left 1000 _, by simp⟩
      · rw [if_neg hlen]
        by_cases hnext : next = true
        · by_cases hpage : 100 < page + 1
          · rw [if_pos hnext, if_pos hpage]
            exact ⟨by show (acc ++ msgs).length ≤ 1000; omega,
              by show idx + 1 ≤ idx + 1 + (100 - page); omega⟩
          · rw [if_pos hnext, if_neg hpage]
            obtain ⟨ih1, ih2⟩ :=
              ih (page + 1) (idx + 1) (acc ++ msgs) (by omega)
                (by show (acc ++ msgs).length < 1000; omega)
            exact ⟨ih1, by omega⟩
        · rw [if_neg hnext]
          exact ⟨by show (acc ++ msgs).length ≤ 1000; omega,
            by show idx + 1 ≤ idx + 1 + (100 - page); omega⟩

/-- C7: the email_scan pagination loop terminates with at most 101 requests
per folder (the initial page plus at most 100 followed continuation links,
the 100-page safety limit), and the messages accumulated from a single
folder are truncated to at most 1000 — for every response oracle, i.e. even
if the server keeps producing continuation links forever. -/
theorem c7_page_and_size_limits (f : Nat → PageResponse) :
    (EmailScan.fetchFolder f).1.length ≤ 1000
      ∧ (EmailScan.fetchFolder f).2 ≤ 101 := by
  have h := EmailScan.fetchFolderGo_bounds f 100 0 0 [] (by omega) (by simp)
  rw [EmailScan.fetchFolder]
  exact ⟨h.1, by omega⟩

/-- A second concrete message, distinct from `msgA`. -/
def msgB : Message :=
  { subject := "b", fromAddr := "", fromName := "",
    toRecipients := [], ccRecipients := [], receivedDateTime := some 2 }

/-- Response oracle for a folder that returns one page carrying `msgA` with
a continuation link, then fails with HTTP 500. -/
def oracleErrAfterOne : Nat → PageResponse := fun n =>
  match n with
  | 0 => .ok [msgA] true
  | _ => .err 500

/-- Response oracle for a folder that returns a single final page carrying
`msgB`. -/
def oracleOnePage : Nat → PageResponse := fun n =>
  match n with
  | 0 => .ok [msgB] false
  | _ => .err 500

/-- C6 counterexample: folder 1 returns a page with `msgA` and then fails
with HTTP 500 mid-pagination; folder 2 succeeds with `msgB`. The run
continues with folder 2, but folder 1's partial result `msgA` is KEPT in the
output — refuting "the partial results already retrieved from that folder
are discarded (contribute nothing to the output)". -/
theorem c6_counterexample :
    EmailScan.fetchFolders [oracleErrAfterOne, oracleOnePage] = [msgA, msgB]
      ∧ [msgA, msgB] ≠ [msgB] := by
  have h1 : EmailScan.fetchFolder oracleErrAfterOne = ([msgA], 2) := by
    rw [EmailScan.fetchFolder, EmailScan.fetchFolderGo_eq]
    norm_num [oracleErrAfterOne]
    rw [EmailScan.fetchFolderGo_eq]
    norm_num [oracleErrAfterOne]
  have h2 : EmailScan.fetchFolder oracleOnePage = ([msgB], 1) := by
    rw [EmailScan.fetchFolder, EmailScan.fetchFolderGo_eq]
    norm_num [oracleOnePage]
  refine ⟨?_, by decide⟩
  rw [EmailScan.fetchFolders]
  simp [h1, h2]

theorem EmailScan.fetchFolderGo_okThenErr (f : Nat → PageResponse)
    (pages : List (List Message)) :
    ∀ (s page idx : Nat) (acc : List Message),
      (∀ i (h : i < pages.length), f (idx + i) = .ok (pages.get ⟨i, h⟩) true) →
      f (idx + pages.length) = .err s →
      page + pages.length ≤ 100 →
      acc.length + pages.flatten.length < 1000 →
      EmailScan.fetchFolderGo f page idx acc =
        (acc ++ pages.flatten, idx + pages.length + 1) := by
  induction pages with
  | nil =>
    intro s page idx acc hok herr hpage hlen
    rw [EmailScan.fetchFolderGo_eq]
    have h0 : f idx = .err s := by simpa using herr
    rw [h0]
    simp
  | cons p ps ih =>
    intro s page idx acc hok herr hpage hlen
    have h0 : f idx = .ok p true := by simpa using hok 0 (by simp)
    simp only [List.flatten_cons, List.length_append, List.length_cons] at hlen hpage ⊢
    have hbig : ¬ (1000 ≤ (acc ++ p).length) := by
      simp only [List.length_append]
      omega
    have hpag : ¬ (100 < page + 1) := by omega
    rw [EmailScan.fetchFolderGo_eq, h0]
    simp only [hbig, hpag, if_false, if_true, eq_self_iff_true]
    have hok2 : ∀ i (h : i < ps.length),
        f (idx + 1 + i) = .ok (ps.get ⟨i, h⟩) true := by
      intro i hi
      have h2 := hok (i + 1) (by simp; omega)
      rw [show idx + (i + 1) = idx + 1 + i by omega] at h2
      exact h2
    have herr2 : f (idx + 1 + ps.length) = .err s := by
      rw [show idx + 1 + ps.length = idx + (ps.length + 1) by omega]
      simpa using herr
    rw [ih s (page + 1) (idx + 1) (acc ++ p) hok2 herr2 (by omega)
      (by simp only [List.length_append]; omega)]
    simp only [Prod.mk.injEq]
    exact ⟨by rw [List.append_assoc], by omega⟩

/-- C6 (amended): when an HTTP error other than 401 occurs mid-pagination
for a folder (here: after the folder's oracle served `pages` successful
pages it fails with status `s`), fetching for that folder alone stops, but
the partial results already retrieved from that folder are RETAINED — they
are exactly the folder's contribution to the output — and the run continues
with the remaining folders. (The side conditions keep the scenario below the
100-page and 1000-message safety caps of C7.) -/
theorem c6_error_keeps_partials (pages : List (List Message)) (s : Nat)
    (f : Nat → PageResponse) (fs : List (Nat → PageResponse))
    ( _hs : s ≠ 401)
    (hok : ∀ i (h : i < pages.length), f i = .ok (pages.get ⟨i, h⟩) true)
    (herr : f pages.length = .err s)
    (hpage : pages.length ≤ 100)
    (hlen : pages.flatten.length < 1000) :
    EmailScan.fetchFolders (f :: fs) =
        pages.flatten ++ EmailScan.fetchFolders fs
      ∧ EmailScan.fetchFolder f = (pages.flatten, pages.length + 1) := by
  have h := EmailScan.fetchFolderGo_okThenErr f pages s 0 0 []
    (by intro i hi; rw [Nat.zero_add]; exact hok i hi)
    (by rw [Nat.zero_add]; exact herr)
    (by omega)
    (by simpa using hlen)
  have hfold : EmailScan.fetchFolder f = (pages.flatten, pages.length + 1) := by
    rw [EmailScan.fetchFolder, h]
    simp
  refine ⟨?_, hfold⟩
  rw [EmailScan.fetchFolders, List.map_cons, List.flatten_cons, hfold]
  rfl

/-- C6 witness: the single-error-folder scenario instantiated with the
concrete oracle `oracleErrAfterOne` (one page carrying `msgA`, then HTTP
500) followed by no further folders. -/
theorem c6_error_keeps_partials_witness :
    EmailScan.fetchFolders [oracleErrAfterOne] =
        [msgA] ++ EmailScan.fetchFolders []
      ∧ EmailScan.fetchFolder oracleErrAfterOne = ([msgA], 2) := by
  have h := c6_error_keeps_partials [[msgA]] 500 oracleErrAfterOne []
    (by decide)
    (by
      intro i hi
      have hi0 : i = 0 := by
        simp only [List.length_cons, List.length_nil] at hi
        omega
      subst hi0
      rfl)
    rfl (by decide) (by decide)
  simpa using h

/-- The sentinel timestamp used for unparseable dates:
`datetime.min` (0001-01-01) as seconds before the epoch. -/
def dtMin : Int := -62135596800

/-- The sort key of email_scan's `parse_dt` / get_user_email's `_parse_dt`:
the parsed `receivedDateTime`, or the `datetime.min` sentinel when the field
is missing or unparseable. -/
def sortKey (m : Message) : Int := m.receivedDateTime.getD dtMin

/-- The comparison underlying `sort(key=parse_dt)` ascending. -/
def dateLe (a b : Message) : Prop := sortKey a ≤ sortKey b

instance : DecidableRel dateLe := fun a b =>
  inferInstanceAs (Decidable (sortKey a ≤ sortKey b))

instance : IsTotal Message dateLe := ⟨fun a b => Int.le_total (sortKey a) (sortKey b)⟩

instance : IsTrans Message dateLe :=
  ⟨fun _ _ _ hab hbc => Int.le_trans hab hbc⟩

/-- The client-side date filter of src/O365/EmailScan/email_scan.py
`fetch_emails` (lines after the folder loop): keep a message iff its
`receivedDateTime` parses and lies in `[min_utc, max_utc]`; parse failures
are skipped (`continue`). -/
def EmailScan.clientDateFilter (minUtc maxUtc : Int) (msgs : List Message) :
    List Message :=
  msgs.filter (fun m =>
    match m.receivedDateTime with
    | none => false
    | some dt => decide (minUtc ≤ dt) && decide (dt ≤ maxUtc))

/-- The client-side tail of `fetch_emails`: date-filter `all_messages`, then
`filtered.sort(key=parse_dt)` ascending (modelled by a stable sort, as
Python's `list.sort` is stable). -/
def EmailScan.fetchEmailsPost (minUtc maxUtc : Int) (msgs : List Message) :
    List Message :=
  (EmailScan.clientDateFilter minUtc maxUtc msgs).insertionSort dateLe

/-- Concrete in-range messages with timestamps T1 < T2 < T3. -/
def msgT1 : Message :=
  { subject := "t1", fromAddr := "", fromName := "",
    toRecipients := [], ccRecipients := [], receivedDateTime := some 1 }

/-- Concrete message with timestamp T2. -/
def msgT2 : Message :=
  { subject := "t2", fromAddr := "", fromName := "",
    toRecipients := [], ccRecipients := [], receivedDateTime := some 2 }

/-- Concrete message with timestamp T3. -/
def msgT3 : Message :=
  { subject := "t3", fromAddr := "", fromName := "",
    toRecipients := [], ccRecipients := [], receivedDateTime := some 3 }

/-- C5: the sequence `fetch_emails` returns is sorted ascending by message
timestamp by an explicit client-side sort, whatever order the server
delivered the pages in: for every input list the result is sorted w.r.t.
`dateLe` and is a permutation of the date-filtered input; and on the
concrete input order [T3, T1, T2] the output is [T1, T2, T3]. -/
theorem c5_sorted_ascending :
    (∀ (lo hi : Int) (msgs : List Message),
        List.Sorted dateLe (EmailScan.fetchEmailsPost lo hi msgs)
          ∧ (EmailScan.fetchEmailsPost lo hi msgs).Perm
              (EmailScan.clientDateFilter lo hi msgs))
      ∧ EmailScan.fetchEmailsPost 0 10 [msgT3, msgT1, msgT2] =
          [msgT1, msgT2, msgT3] := by
  refine ⟨fun lo hi msgs => ⟨?_, ?_⟩, by decide⟩
  · exact List.sorted_insertionSort dateLe _
  · exact List.perm_insertionSort dateLe _

/-- The client-side sender filter of src/Office365API/get_user_email.py
`get_user_email` (the `if from_email_addresses:` branch): keep a message iff
some search term, lowered, is a substring of the lowered from-address or
from-name; the inner loop breaks at the first matching term. -/
def O365.senderFilterGo (terms : List String) : List Message → List Message
  | [] => []
  | m :: rest =>
    match terms.find? (fun t =>
        pyIn (pyLower t) (pyLower m.fromAddr) ||
          pyIn (pyLower t) (pyLower m.fromName)) with
    | some _ => m :: O365.senderFilterGo terms rest
    | none => O365.senderFilterGo terms rest

/-- The post-fetch tail of `get_user_email`, from the sender-filter branch
to the table rendering. The first component is the final `messages` value;
the second is `some sortedMessages` when the sort-and-display code ran
(with the list it rendered) and `none` when the function returned without
sorting or rendering. -/
def O365.getUserEmailPost (fromAddrs : List String) (msgs : List Message) :
    List Message × Option (List Message) :=
  match fromAddrs with
  | _ :: _ => (O365.senderFilterGo fromAddrs msgs, none)
  | [] =>
    match msgs with
    | [] => ([], none)
    | m :: rest =>
      ((m :: rest).insertionSort dateLe,
        some ((m :: rest).insertionSort dateLe))

/-- C10: in the get_user_email variant, whenever a non-empty sender filter
is supplied the function applies the client-side sender filter and then
returns without ever sorting the messages or rendering the table (second
component `none`); the sorting and table display execute only in the branch
taken when no sender filter was supplied (and the message list is
non-empty). -/
theorem c10_sender_filter_skips_render :
    (∀ (t : String) (ts : List String) (msgs : List Message),
        O365.getUserEmailPost (t :: ts) msgs =
          (O365.senderFilterGo (t :: ts) msgs, none))
      ∧ (∀ (m : Message) (rest : List Message),
          O365.getUserEmailPost [] (m :: rest) =
            ((m :: rest).insertionSort dateLe,
              some ((m :: rest).insertionSort dateLe))) := by
  exact ⟨fun t ts msgs => rfl, fun m rest => rfl⟩

/-- Python `line.startswith("ACCESS_TOKEN=")` as tested by
`update_env_file` / `_save_token_to_env`. -/
def isTokLine (l : String) : Bool := pyStartsWith l "ACCESS_TOKEN="

/-- Python `line.startswith("TOKEN_TIMESTAMP=")`. -/
def isTsLine (l : String) : Bool := pyStartsWith l "TOKEN_TIMESTAMP="

/-- The per-line rewrite of the `for i, line in enumerate(env_lines)` loop of
src/Office365API/get_user_email.py `update_env_file`: an ACCESS_TOKEN line
becomes the new token line, a TOKEN_TIMESTAMP line the new timestamp line
(`elif`), every other line is unchanged. -/
def envReplaceLine (token ts l : String) : String :=
  if isTokLine l then "ACCESS_TOKEN=" ++ token
  else if isTsLine l then "TOKEN_TIMESTAMP=" ++ ts
  else l

/-- src/Office365API/get_user_email.py `update_env_file` (same algorithm in
src/O365/EmailScan/email_scan.py `_save_token_to_env`) on the .env content
as a list of lines: rewrite existing key lines in place; then, for each key
whose line was not found, append one (ACCESS_TOKEN first, TOKEN_TIMESTAMP
second); finally write the lines back. -/
def updateEnvLines (lines : List String) (token ts : String) : List String :=
  let replaced := lines.map (envReplaceLine token ts)
  let withTok :=
    if lines.any isTokLine then replaced
    else replaced ++ ["ACCESS_TOKEN=" ++ token]
  if lines.any isTsLine then withTok
  else withTok ++ ["TOKEN_TIMESTAMP=" ++ ts]

theorem leadsWith_append_self : ∀ (xs ys : List Char), leadsWith xs (xs ++ ys) = true
  | [], _ => rfl
  | a :: as, ys => by
    rw [List.cons_append, leadsWith]
    simp [leadsWith_append_self as ys]

theorem isTokLine_tokLine (token : String) :
    isTokLine ("ACCESS_TOKEN=" ++ token) = true := by
  rw [isTokLine, pyStartsWith, String.data_append]
  exact leadsWith_append_self _ _

theorem isTsLine_tsLine (ts : String) :
    isTsLine ("TOKEN_TIMESTAMP=" ++ ts) = true := by
  rw [isTsLine, pyStartsWith, String.data_append]
  exact leadsWith_append_self _ _

theorem isTsLine_tokLine (token : String) :
    isTsLine ("ACCESS_TOKEN=" ++ token) = false := by
  rw [isTsLine, pyStartsWith, String.data_append]
  rfl

theorem isTokLine_tsLine (ts : String) :
    isTokLine ("TOKEN_TIMESTAMP=" ++ ts) = false := by
  rw [isTokLine, pyStartsWith, String.data_append]
  rfl

theorem leadsWith_false_of_head {a b : Char} {as bs l : List Char}
    (hab : (b == a) = false) (h : leadsWith (a :: as) l = true) :
    leadsWith (b :: bs) l = false := by
  cases l with
  | nil => rw [leadsWith] at h; exact absurd h (by simp)
  | cons c cs =>
    rw [leadsWith] at h ⊢
    have hac : (a == c) = true := (Bool.and_eq_true _ _ |>.mp h).1
    have hbc : (b == c) = false := by
      have h1 : a = c := beq_iff_eq.mp hac
      rw [← h1]
      exact hab
    simp [hbc]

theorem isTsLine_eq_false_of_isTokLine {l : String} (h : isTokLine l = true) :
    isTsLine l = false := by
  rw [isTokLine, pyStartsWith] at h
  rw [isTsLine, pyStartsWith]
  rw [show ("ACCESS_TOKEN=").data = 'A' :: ("CCESS_TOKEN=").data from rfl] at h
  rw [show ("TOKEN_TIMESTAMP=").data = 'T' :: ("OKEN_TIMESTAMP=").data from rfl]
  exact leadsWith_false_of_head (by decide) h

theorem isTokLine_eq_false_of_isTsLine {l : String} (h : isTsLine l = true) :
    isTokLine l = false := by
  rw [isTsLine, pyStartsWith] at h
  rw [isTokLine, pyStartsWith]
  rw [show ("TOKEN_TIMESTAMP=").data = 'T' :: ("OKEN_TIMESTAMP=").data from rfl] at h
  rw [show ("ACCESS_TOKEN=").data = 'A' :: ("CCESS_TOKEN=").data from rfl]
  exact leadsWith_false_of_head (by decide) h

theorem envReplaceLine_other {token ts l : String} (h1 : isTokLine l = false)
    (h2 : isTsLine l = false) : envReplaceLine token ts l = l := by
  simp [envReplaceLine, h1, h2]

theorem envReplaceLine_tok {token ts l : String} (h : isTokLine l = true) :
    envReplaceLine token ts l = "ACCESS_TOKEN=" ++ token := by
  simp [envReplaceLine, h]

theorem envReplaceLine_ts {token ts l : String} (h : isTsLine l = true) :
    envReplaceLine token ts l = "TOKEN_TIMESTAMP=" ++ ts := by
  simp [envReplaceLine, isTokLine_eq_false_of_isTsLine h, h]

theorem isTokLine_envReplaceLine (token ts l : String) :
    isTokLine (envReplaceLine token ts l) = isTokLine l := by
  by_cases h1 : isTokLine l = true
  · rw [envReplaceLine_tok h1, isTokLine_tokLine, h1]
  · rw [Bool.not_eq_true] at h1
    by_cases h2 : isTsLine l = true
    · rw [envReplaceLine_ts h2, isTokLine_tsLine, h1]
    · rw [Bool.not_eq_true] at h2
      rw [envReplaceLine_other h1 h2]

theorem isTsLine_envReplaceLine (token ts l : String) :
    isTsLine (envReplaceLine token ts l) = isTsLine l := by
  by_cases h1 : isTokLine l = true
  · rw [envReplaceLine_tok h1, isTsLine_tokLine,
      isTsLine_eq_false_of_isTokLine h1]
  · rw [Bool.not_eq_true] at h1
    by_cases h2 : isTsLine l = true
    · rw [envReplaceLine_ts h2, isTsLine_tsLine, h2]
    · rw [Bool.not_eq_true] at h2
      rw [envReplaceLine_other h1 h2]

theorem envReplaceLine_idem (token ts l : String) :
    envReplaceLine token ts (envReplaceLine token ts l) =
      envReplaceLine token ts l := by
  by_cases h1 : isTokLine l = true
  · rw [envReplaceLine_tok h1, envReplaceLine_tok (isTokLine_tokLine token)]
  · rw [Bool.not_eq_true] at h1
    by_cases h2 : isTsLine l = true
    · rw [envReplaceLine_ts h2, envReplaceLine_ts (isTsLine_tsLine ts)]
    · rw [Bool.not_eq_true] at h2
      rw [envReplaceLine_other h1 h2, envReplaceLine_other h1 h2]

theorem any_map_eq {α : Type} (p : α → Bool) (f : α → α)
    (hp : ∀ l, p (f l) = p l) (lines : List α) :
    (lines.map f).any p = lines.any p := by
  induction lines with
  | nil => rfl
  | cons a rest ih => simp [List.any_cons, hp a, ih]

theorem filter_map_zero {α : Type} (p : α → Bool) (f : α → α)
    (hp : ∀ l, p (f l) = p l) (lines : List α)
    (h : lines.countP p = 0) : (lines.map f).filter p = [] := by
  rw [List.filter_eq_nil_iff]
  intro a ha
  obtain ⟨x, hx, rfl⟩ := List.mem_map.mp ha
  rw [hp x]
  exact (List.countP_eq_zero.mp h) x hx

theorem filter_map_single {α : Type} (p : α → Bool) (f : α → α) (c : α)
    ( _hc : p c = true) (hp : ∀ l, p (f l) = p l)
    (hf : ∀ l, p l = true → f l = c) :
    ∀ lines : List α, lines.countP p ≤ 1 → lines.any p = true →
      (lines.map f).filter p = [c] := by
  intro lines
  induction lines with
  | nil => intro _ hany; simp at hany
  | cons a rest ih =>
    intro hcount hany
    rw [List.map_cons, List.filter_cons, hp a]
    by_cases hpa : p a = true
    · rw [if_pos hpa, hf a hpa]
      rw [List.countP_cons_of_pos _ _ hpa] at hcount
      rw [filter_map_zero p f hp rest (by omega)]
    · rw [if_neg hpa]
      rw [Bool.not_eq_true] at hpa
      apply ih
      · rw [List.countP_cons_of_neg _ _ (by simp [hpa])] at hcount
        exact hcount
      · simpa [List.any_cons, hpa] using hany

theorem updateEnvLines_parts (lines : List String) (token ts : String) :
    ∃ tail : List String,
      updateEnvLines lines token ts =
          lines.map (envReplaceLine token ts) ++ tail
        ∧ ∀ l, l ∈ tail →
            l = "ACCESS_TOKEN=" ++ token ∨ l = "TOKEN_TIMESTAMP=" ++ ts := by
  rw [updateEnvLines]
  by_cases h1 : lines.any isTokLine = true <;>
    by_cases h2 : lines.any isTsLine = true
  · exact ⟨[], by simp [h1, h2], by simp⟩
  · refine ⟨["TOKEN_TIMESTAMP=" ++ ts], by simp [h1, h2], ?_⟩
    intro l hl
    rcases List.mem_cons.mp hl with h | h
    · exact Or.inr h
    · simp at h
  · refine ⟨["ACCESS_TOKEN=" ++ token], by simp [h1, h2], ?_⟩
    intro l hl
    rcases List.mem_cons.mp hl with h | h
    · exact Or.inl h
    · simp at h
  · refine ⟨["ACCESS_TOKEN=" ++ token, "TOKEN_TIMESTAMP=" ++ ts],
      by simp [h1, h2], ?_⟩
    intro l hl
    rcases List.mem_cons.mp hl with h | h
    · exact Or.inl h
    · rcases List.mem_cons.mp h with h3 | h3
      · exact Or.inr h3
      · simp at h3

theorem updateEnvLines_any (lines : List String) (token ts : String) :
    (updateEnvLines lines token ts).any isTokLine = true
      ∧ (updateEnvLines lines token ts).any isTsLine = true := by
  have hmapTok := any_map_eq isTokLine (envReplaceLine token ts)
    (isTokLine_envReplaceLine token ts) lines
  have hmapTs := any_map_eq isTsLine (envReplaceLine token ts)
    (isTsLine_envReplaceLine token ts) lines
  rw [updateEnvLines]
  by_cases h1 : lines.any isTokLine = true <;>
    by_cases h2 : lines.any isTsLine = true <;>
      simp [h1, h2, hmapTok, hmapTs, List.any_append, isTokLine_tokLine,
        isTsLine_tsLine, isTsLine_tokLine, isTokLine_tsLine]

theorem updateEnvLines_idem (lines : List String) (token ts : String) :
    updateEnvLines (updateEnvLines lines token ts) token ts =
      updateEnvLines lines token ts := by
  obtain ⟨hany1, hany2⟩ := updateEnvLines_any lines token ts
  obtain ⟨tail, heq, htail⟩ := updateEnvLines_parts lines token ts
  have hmap : (updateEnvLines lines token ts).map (envReplaceLine token ts) =
      updateEnvLines lines token ts := by
    rw [heq, List.map_append, List.map_map]
    congr 1
    · exact List.map_congr_left
        (fun a _ => envReplaceLine_idem token ts a)
    · have hfix : ∀ l ∈ tail, envReplaceLine token ts l = id l := by
        intro l hl
        rcases htail l hl with h | h
        · rw [h]
          exact envReplaceLine_tok (isTokLine_tokLine token)
        · rw [h]
          exact envReplaceLine_ts (isTsLine_tsLine ts)
      rw [List.map_congr_left hfix, List.map_id]
  conv_lhs => rw [updateEnvLines]
  simp [hany1, hany2, hmap]

/-- C9 counterexample: the claim quantifies over every prior content of the
store, but on a prior content holding two ACCESS_TOKEN lines the
`for i, line in enumerate(env_lines)` loop rewrites BOTH lines in place and
appends nothing, so the persisted store still holds two (now identical)
ACCESS_TOKEN lines — refuting "never produces duplicate lines for those
keys" as a property of every prior content. -/
theorem c9_counterexample :
    updateEnvLines ["ACCESS_TOKEN=a", "ACCESS_TOKEN=b"] "new" "T0" =
        ["ACCESS_TOKEN=new", "ACCESS_TOKEN=new", "TOKEN_TIMESTAMP=T0"]
      ∧ (updateEnvLines ["ACCESS_TOKEN=a", "ACCESS_TOKEN=b"] "new" "T0").countP
          isTokLine = 2
      ∧ (2 : Nat) ≠ 1 := by
  refine ⟨by decide, by decide, by decide⟩

/-- C9 (amended): on a token store holding at most one line per key — the
shape the upsert itself maintains, and the only shape it ever writes —
persisting a new token rewrites or appends exactly the ACCESS_TOKEN and
timestamp (TOKEN_TIMESTAMP / TOKEN_GENERATED_AT) lines: every other line is
unchanged and keeps its original position, the result holds exactly one
line for each of the two keys with the new values (no duplicate key lines),
and the upsert is idempotent (idempotence holds for every prior content).
On a store that already holds duplicate key lines the loop rewrites each
occurrence in place and appends nothing (see the C9 counterexample), so
pre-existing duplicates persist. -/
theorem c9_env_upsert (lines : List String) (token ts : String)
    (hA : lines.countP isTokLine ≤ 1) (hT : lines.countP isTsLine ≤ 1) :
    (∀ i (h : i < lines.length),
        isTokLine (lines.get ⟨i, h⟩) = false →
        isTsLine (lines.get ⟨i, h⟩) = false →
        (updateEnvLines lines token ts)[i]? = some (lines.get ⟨i, h⟩))
      ∧ (updateEnvLines lines token ts).filter isTokLine =
          ["ACCESS_TOKEN=" ++ token]
      ∧ (updateEnvLines lines token ts).filter isTsLine =
          ["TOKEN_TIMESTAMP=" ++ ts]
      ∧ updateEnvLines (updateEnvLines lines token ts) token ts =
          updateEnvLines lines token ts := by
  refine ⟨?_, ?_, ?_, updateEnvLines_idem lines token ts⟩
  · intro i h hA1 hT1
    obtain ⟨tail, heq, -⟩ := updateEnvLines_parts lines token ts
    rw [heq, List.getElem?_append,
      if_pos (show i < (List.map (envReplaceLine token ts) lines).length by
        simpa using h),
      List.getElem?_map, List.getElem?_eq_getElem h]
    simp only [List.get_eq_getElem] at hA1 hT1
    simp [envReplaceLine_other hA1 hT1]
  · rw [updateEnvLines]
    by_cases h1 : lines.any isTokLine = true <;>
      by_cases h2 : lines.any isTsLine = true <;>
        simp only [h1, h2, if_true, if_false, Bool.false_eq_true,
          List.filter_append]
    · exact filter_map_single isTokLine _ _ (isTokLine_tokLine token)
        (isTokLine_envReplaceLine token ts)
        (fun l hl => envReplaceLine_tok hl) lines hA h1
    · rw [filter_map_single isTokLine _ _ (isTokLine_tokLine token)
        (isTokLine_envReplaceLine token ts)
        (fun l hl => envReplaceLine_tok hl) lines hA h1]
      simp [isTokLine_tsLine]
    · rw [Bool.not_eq_true] at h1
      rw [filter_map_zero isTokLine _ (isTokLine_envReplaceLine token ts)
        lines (by rw [List.countP_eq_zero]; exact List.any_eq_false.mp h1)]
      simp [isTokLine_tokLine]
    · rw [Bool.not_eq_true] at h1
      rw [filter_map_zero isTokLine _ (isTokLine_envReplaceLine token ts)
        lines (by rw [List.countP_eq_zero]; exact List.any_eq_false.mp h1)]
      simp [isTokLine_tokLine, isTokLine_tsLine]
  · rw [updateEnvLines]
    by_cases h1 : lines.any isTokLine = true <;>
      by_cases h2 : lines.any isTsLine = true <;>
        simp only [h1, h2, if_true, if_false, Bool.false_eq_true,
          List.filter_append]
    · exact filter_map_single isTsLine _ _ (isTsLine_tsLine ts)
        (isTsLine_envReplaceLine token ts)
        (fun l hl => envReplaceLine_ts hl) lines hT h2
    · rw [Bool.not_eq_true] at h2
      rw [filter_map_zero isTsLine _ (isTsLine_envReplaceLine token ts)
        lines (by rw [List.countP_eq_zero]; exact List.any_eq_false.mp h2)]
      simp [isTsLine_tsLine]
    · rw [filter_map_single isTsLine _ _ (isTsLine_tsLine ts)
        (isTsLine_envReplaceLine token ts)
        (fun l hl => envReplaceLine_ts hl) lines hT h2]
      simp [isTsLine_tokLine]
    · rw [Bool.not_eq_true] at h2
      rw [filter_map_zero isTsLine _ (isTsLine_envReplaceLine token ts)
        lines (by rw [List.countP_eq_zero]; exact List.any_eq_false.mp h2)]
      simp [isTsLine_tsLine, isTsLine_tokLine]

/-- C9 witness: upserting into a store holding a CLIENT_ID line and an old
ACCESS_TOKEN line rewrites the token line in place, appends one timestamp
line, and leaves the CLIENT_ID line first. -/
theorem c9_env_upsert_witness :
    (updateEnvLines ["CLIENT_ID=abc", "ACCESS_TOKEN=old"] "newtok" "T0").filter
        isTokLine = ["ACCESS_TOKEN=" ++ "newtok"]
      ∧ (updateEnvLines ["CLIENT_ID=abc", "ACCESS_TOKEN=old"] "newtok" "T0").filter
          isTsLine = ["TOKEN_TIMESTAMP=" ++ "T0"]
      ∧ (updateEnvLines ["CLIENT_ID=abc", "ACCESS_TOKEN=old"] "newtok" "T0")[0]? =
          some "CLIENT_ID=abc" := by
  have h := c9_env_upsert ["CLIENT_ID=abc", "ACCESS_TOKEN=old"] "newtok" "T0"
    (by decide) (by decide)
  refine ⟨h.2.1, h.2.2.1, ?_⟩
  have h0 := h.1 0 (by decide) (by decide) (by decide)
  simpa using h0
